import Mathlib

/-!
Shallow embedding of `src/data_fetcher.py` of the market-analyser repository.

Modelling conventions:
* Python floats are modelled as exact rationals (`ℚ`); Python's `round(x, n)`
  (round-half-to-even on the scaled value) is `pyround`.
* A pandas price Series for one ticker is a `List (Option ℚ)` — `none` models a
  NaN cell; `Series.dropna()` is `List.filterMap id`.  A whole missing
  DataFrame (a failed `yf.download`, the `except` branches of
  `get_prices_batch`) is the outer `none` of `Option (List (Option ℚ))`.
* The dual-layout column lookup inside `get_series` (MultiIndex
  `(field, ticker)` vs `(ticker, field)` vs flat single-ticker columns) is
  abstracted to the selected per-ticker "Close" column handed to the function;
  the `dropna` and non-emptiness checks of `get_series` are kept verbatim.
* Python string operations used by the code (`str.strip`, `str.upper`,
  single-character `str.replace`) are modelled character-wise on `String.data`
  so that they evaluate inside proofs.
* Python's stable `list.sort` is modelled by `List.insertionSort`, which is
  also stable, hence produces the identical list for the same key function.
* Wall-clock time (`time.time()`) is passed in explicitly; the module-level
  `_cache` dict becomes an explicit state value threaded through functions.
-/

namespace MarketAnalyser

/-- Rounding of a rational to the nearest integer, ties to even — the rounding
mode of Python's builtin `round`. -/
def round_half_even (x : ℚ) : ℤ :=
  let n := ⌊x⌋
  let r := x - n
  if r < 1/2 then n
  else if 1/2 < r then n + 1
  else if n % 2 = 0 then n else n + 1

/-- Python's `round(x, ndigits)` on exact rationals. -/
def pyround (x : ℚ) (ndigits : ℕ) : ℚ :=
  (round_half_even (x * 10 ^ ndigits) : ℚ) / 10 ^ ndigits

/-- Python's `str.strip`/`str.upper`/`str.replace` helpers, character-wise. -/
def isSpaceChar (c : Char) : Bool :=
  c = ' ' || c = '\t' || c = '\n' || c = '\r'

/-- Uppercasing of one ASCII character, as Python's `str.upper` acts on the
ticker strings handled by the code. -/
def upChar (c : Char) : Char :=
  if 'a' ≤ c ∧ c ≤ 'z' then Char.ofNat (c.toNat - 32) else c

/-- Model of Python `s.strip()`. -/
def pyStrip (s : String) : String :=
  String.mk (((s.data.dropWhile isSpaceChar).reverse.dropWhile isSpaceChar).reverse)

/-- Model of Python `s.upper()`. -/
def pyUpper (s : String) : String :=
  String.mk (s.data.map upChar)

/-- Source: `_normalize_ticker` — `ticker.replace(".", "-").replace("/", "-")`.
Both replacements are single-character, so they amount to one character map. -/
def _normalize_ticker (ticker : String) : String :=
  String.mk (ticker.data.map (fun c => if c = '.' ∨ c = '/' then '-' else c))

/-- Source: the regex filter `^[A-Z](1,5 letters)(-[A-Z])?$` used on tickers by
`_fetch_holdings_invesco` and `_fetch_holdings_slickcharts`: one to five
uppercase letters, optionally followed by a hyphen and one uppercase letter. -/
def isUpperLetter (c : Char) : Bool := 'A' ≤ c && c ≤ 'Z'

/-- Decides whether a ticker string matches the ticker-format regex. -/
def ticker_ok (s : String) : Bool :=
  let cs := s.data
  let letters := cs.takeWhile isUpperLetter
  let rest := cs.drop letters.length
  decide (1 ≤ letters.length) && decide (letters.length ≤ 5) &&
    (match rest with
     | [] => true
     | ['-', c] => isUpperLetter c
     | _ => false)

/-- Source: `_empty_price` / the `PriceQuote` record shape of the spec. -/
structure PriceQuote where
  price : Option ℚ
  prev_close : Option ℚ
  change_dollar : Option ℚ
  change_pct : Option ℚ
  valid : Bool
deriving DecidableEq

/-- Source: `_empty_price()` — all numeric fields `None`, `valid: False`. -/
def empty_price : PriceQuote :=
  { price := none, prev_close := none, change_dollar := none,
    change_pct := none, valid := false }

/-- Source: the `get_series` closure inside `_extract_price`: given the close
column of the (possibly missing) DataFrame, drop NaN cells and return the
series only when it is non-empty. -/
def get_series (data : Option (List (Option ℚ))) : Option (List ℚ) :=
  match data with
  | none => none
  | some rows =>
    let s := rows.filterMap id
    if 0 < s.length then some s else none

/-- Non-missing values of a (possibly absent) close column; used to state the
derivation rules. -/
def nonMissing (data : Option (List (Option ℚ))) : List ℚ :=
  (data.getD []).filterMap id

/-- Source: `_extract_price` lines 469-486 — the current price: last value of
the dropna'd intraday close series if any, else (when the daily series is
non-empty) the last value of the dropna'd daily close series. -/
def currentPrice (intraday daily : Option (List (Option ℚ))) : Option ℚ :=
  match get_series intraday with
  | some s => s.getLast?
  | none =>
    match get_series daily with
    | some s => s.getLast?
    | none => none

/-- Source: `_extract_price` lines 475-482 — the previous close: second-to-last
value of the dropna'd daily series when it has at least two points, else its
single value; `none` when the daily series is missing or empty. -/
def prevClose (daily : Option (List (Option ℚ))) : Option ℚ :=
  match get_series daily with
  | some s => if 2 ≤ s.length then s.dropLast.getLast? else s.getLast?
  | none => none

/-- Source: `_extract_price` — assemble the quote from the derived current
price and previous close; all-absent empty quote when either is unresolved. -/
def _extract_price (intraday daily : Option (List (Option ℚ))) : PriceQuote :=
  match currentPrice intraday daily, prevClose daily with
  | some current_price, some prev_close₀ =>
    let change_dollar := current_price - prev_close₀
    let change_pct := if prev_close₀ ≠ 0 then change_dollar / prev_close₀ * 100 else 0
    { price := some (pyround current_price 2)
      prev_close := some (pyround prev_close₀ 2)
      change_dollar := some (pyround change_dollar 2)
      change_pct := some (pyround change_pct 4)
      valid := true }
  | _, _ => empty_price

/-- Python dict assignment `m[k] = v`: update in place when the key exists
(keeping its position), else append. -/
def dictInsert (m : List (String × String)) (k v : String) : List (String × String) :=
  if m.any (fun p => p.1 = k) then
    m.map (fun p => if p.1 = k then (k, v) else p)
  else m ++ [(k, v)]

/-- Source: `norm_map = (normalized t : t for t in tickers)` of
`get_prices_batch`, as an insertion-ordered association list. -/
def norm_map (tickers : List String) : List (String × String) :=
  tickers.foldl (fun m t => dictInsert m (_normalize_ticker t) t) []

/-- Source: `get_prices_batch` — empty dict on empty input, else one quote per
entry of `norm_map`, keyed by the original ticker.  The two shared batch
downloads are abstracted to the per-normalized-ticker close columns
`intradayOf`/`dailyOf`; a failed download is `fun t => none`.  The per-ticker
`except` branch cannot fire in the model since `_extract_price` is total. -/
def get_prices_batch (tickers : List String)
    (intradayOf dailyOf : String → Option (List (Option ℚ))) :
    List (String × PriceQuote) :=
  if tickers.isEmpty then []
  else (norm_map tickers).map
    (fun p => (p.2, _extract_price (intradayOf p.1) (dailyOf p.1)))

/-- Source: `calculate_contribution` — `round(weight * change_pct, 4)`. -/
def calculate_contribution (weight change_pct : ℚ) : ℚ :=
  pyround (weight * change_pct) 4

/-- Uniform holding record `[ticker, name, weight, sector]` produced by every
tier of the fallback chain. -/
structure Holding where
  ticker : String
  name : String
  weight : ℚ
  sector : String
deriving DecidableEq

/-- Sorting used at the end of every tier: `sort_values("weight",
ascending=False)`, modelled as a stable sort by descending weight. -/
def sortByWeightDesc (hs : List Holding) : List Holding :=
  hs.insertionSort (fun a b => b.weight ≤ a.weight)

/-- One parsed data row of the Invesco CSV after the column-normalization step
(`ticker`/`weight_str` columns located, weight cell already stripped of `%`
and parsed to a number by `astype(float)`; rows with missing ticker dropped by
`notna()`). -/
structure InvescoRow where
  ticker : String
  weightPct : ℚ
  name : String
  sector : String
deriving DecidableEq

/-- Source: the cleaning part of `_fetch_holdings_invesco` (lines 166-188):
strip+upper tickers, keep only regex-valid tickers, weight = parsed percent
value / 100, sort by weight descending.  The download, header-row scan and
column mapping are I/O and are abstracted to the parsed rows. -/
def _fetch_holdings_invesco (rows : List InvescoRow) : List Holding :=
  let cleaned := rows.map (fun r => { r with ticker := pyUpper (pyStrip r.ticker) })
  let filtered := cleaned.filter (fun r => ticker_ok r.ticker)
  sortByWeightDesc (filtered.map
    (fun r => { ticker := r.ticker, name := r.name,
                weight := r.weightPct / 100, sector := r.sector }))

/-- One parsed row of the Slickcharts table after column normalization; the
weight cell goes through `pd.to_numeric(..., errors="coerce")`, so it is
`none` when unparseable. -/
structure SlickRow where
  ticker : String
  weightPct : Option ℚ
  name : String
deriving DecidableEq

/-- Source: the cleaning part of `_fetch_holdings_slickcharts` (lines 245-265):
strip+upper tickers, regex filter, weight = coerced percent (`fillna(0)`) /
100, keep strictly positive weights, empty sector, sort descending. -/
def _fetch_holdings_slickcharts (rows : List SlickRow) : List Holding :=
  let cleaned := rows.map (fun r => { r with ticker := pyUpper (pyStrip r.ticker) })
  let filtered := cleaned.filter (fun r => ticker_ok r.ticker)
  let hs := filtered.map
    (fun r => { ticker := r.ticker, name := r.name,
                weight := (r.weightPct.getD 0) / 100, sector := "" })
  sortByWeightDesc (hs.filter (fun h => 0 < h.weight))

/-- One row of `funds_data.top_holdings` after the defensive column renaming;
the weight goes through `pd.to_numeric(..., errors="coerce")`. -/
structure YfRow where
  ticker : String
  name : String
  weightRaw : Option ℚ
deriving DecidableEq

/-- Source: `_fetch_holdings_yfinance` (lines 279-304): weights coerced with
`fillna(0)`; when the column maximum exceeds 1.5 all weights are divided by
100; sector is `"Unknown"`; no ticker validation at all.  The `foldl max 0`
seed is harmless for the `1.5 <` test since the threshold is positive. -/
def _fetch_holdings_yfinance (rows : List YfRow) : List Holding :=
  let ws : List ℚ := rows.map (fun r => r.weightRaw.getD 0)
  let maxW : ℚ := ws.foldl max 0
  sortByWeightDesc (rows.map
    (fun r => { ticker := r.ticker, name := r.name,
                weight := if 3/2 < maxW then (r.weightRaw.getD 0) / 100
                          else r.weightRaw.getD 0,
                sector := "Unknown" }))

/-- Source: `_STATIC_HOLDINGS` — the hardcoded top-30 snapshot. -/
def _STATIC_HOLDINGS : List Holding := [
  ⟨"MSFT", "Microsoft Corp", 840/10000, "Technology"⟩,
  ⟨"NVDA", "NVIDIA Corp", 820/10000, "Technology"⟩,
  ⟨"AAPL", "Apple Inc", 790/10000, "Technology"⟩,
  ⟨"AMZN", "Amazon.com Inc", 530/10000, "Consumer Discretionary"⟩,
  ⟨"GOOGL", "Alphabet Inc Class A", 390/10000, "Communication Services"⟩,
  ⟨"META", "Meta Platforms Inc", 380/10000, "Communication Services"⟩,
  ⟨"GOOG", "Alphabet Inc Class C", 330/10000, "Communication Services"⟩,
  ⟨"TSLA", "Tesla Inc", 290/10000, "Consumer Discretionary"⟩,
  ⟨"COST", "Costco Wholesale Corp", 250/10000, "Consumer Staples"⟩,
  ⟨"AVGO", "Broadcom Inc", 240/10000, "Technology"⟩,
  ⟨"NFLX", "Netflix Inc", 170/10000, "Communication Services"⟩,
  ⟨"AMD", "Advanced Micro Devices", 160/10000, "Technology"⟩,
  ⟨"ADBE", "Adobe Inc", 130/10000, "Technology"⟩,
  ⟨"QCOM", "QUALCOMM Inc", 120/10000, "Technology"⟩,
  ⟨"PEP", "PepsiCo Inc", 120/10000, "Consumer Staples"⟩,
  ⟨"AMAT", "Applied Materials Inc", 110/10000, "Technology"⟩,
  ⟨"CSCO", "Cisco Systems Inc", 100/10000, "Technology"⟩,
  ⟨"TXN", "Texas Instruments Inc", 90/10000, "Technology"⟩,
  ⟨"INTC", "Intel Corp", 80/10000, "Technology"⟩,
  ⟨"INTU", "Intuit Inc", 80/10000, "Technology"⟩,
  ⟨"AMGN", "Amgen Inc", 70/10000, "Health Care"⟩,
  ⟨"ISRG", "Intuitive Surgical Inc", 70/10000, "Health Care"⟩,
  ⟨"HON", "Honeywell International", 60/10000, "Industrials"⟩,
  ⟨"BKNG", "Booking Holdings Inc", 60/10000, "Consumer Discretionary"⟩,
  ⟨"SBUX", "Starbucks Corp", 60/10000, "Consumer Discretionary"⟩,
  ⟨"GILD", "Gilead Sciences Inc", 50/10000, "Health Care"⟩,
  ⟨"MDLZ", "Mondelez International", 50/10000, "Consumer Staples"⟩,
  ⟨"ADP", "Automatic Data Processing", 50/10000, "Technology"⟩,
  ⟨"PANW", "Palo Alto Networks Inc", 50/10000, "Technology"⟩,
  ⟨"REGN", "Regeneron Pharmaceuticals", 40/10000, "Health Care"⟩]

/-- Source: `_get_static_holdings` — the static snapshot, sorted by weight. -/
def _get_static_holdings : List Holding :=
  sortByWeightDesc _STATIC_HOLDINGS

/-- Result of one fallible tier: `none` models an exception caught inside the
tier (network error, parse error, timeout — all caught and turned into
`return None`), `some l` a returned DataFrame with rows `l`. -/
def tier_failed (t : Option (List Holding)) : Bool :=
  match t with
  | none => true
  | some l => l.isEmpty

/-- Source: the `if df is None or df.empty` cascade of `get_qqq_holdings`:
keep the tier's frame when present and non-empty, else move on. -/
def orElseTier (t : Option (List Holding)) (next : List Holding) : List Holding :=
  match t with
  | none => next
  | some l => if l.isEmpty then next else l

/-- Source: `get_qqq_holdings` lines 93-102 — the four-tier fallback chain,
with each fallible tier's outcome passed in. -/
def holdings_chain (t1 t2 t3 : Option (List Holding)) : List Holding :=
  orElseTier t1 (orElseTier t2 (orElseTier t3 _get_static_holdings))

/-- Cache TTL constants of the module. -/
def HOLDINGS_CACHE_TTL : ℚ := 86400

/-- Price-data slot TTL. -/
def PRICE_CACHE_TTL : ℚ := 60

/-- Holdings slot of the module-level `_cache` dict. -/
structure HoldingsCache where
  holdings : Option (List Holding)
  holdings_ts : ℚ
deriving DecidableEq

/-- Source: `get_qqq_holdings` — serve the cached frame when fresh, else run
the fallback chain and store its result. -/
def get_qqq_holdings (cache : HoldingsCache) (now : ℚ)
    (t1 t2 t3 : Option (List Holding)) : List Holding × HoldingsCache :=
  let recompute :=
    let df := holdings_chain t1 t2 t3
    (df, HoldingsCache.mk (some df) now)
  match cache.holdings with
  | some df =>
    if now - cache.holdings_ts < HOLDINGS_CACHE_TTL then (df, cache) else recompute
  | none => recompute

/-- Market-caps slot of the module-level `_cache` dict. -/
structure MarketCapsCache where
  market_caps : Option (List (String × Option ℚ))
  market_caps_ts : ℚ
deriving DecidableEq

/-- Source: `_fetch_single_market_cap` — `float(mc) if mc else None`, with the
vendor lookup abstracted to the oracle `fetch` (`none` = exception or missing
value; a vendor value of `0` is falsy in Python and also yields `None`). -/
def _fetch_single_market_cap (fetch : String → Option ℚ) (ticker : String) :
    String × Option ℚ :=
  match fetch ticker with
  | some mc => if mc = 0 then (ticker, none) else (ticker, some mc)
  | none => (ticker, none)

/-- Source: `get_market_caps` — serve the cached map when younger than the
24-hour TTL (ignoring the `tickers` argument), else fetch every requested
ticker and store the result.  The `as_completed` completion order is
nondeterministic in the source; the model uses submission order, which has
the same key set. -/
def get_market_caps (cache : MarketCapsCache) (now : ℚ) (tickers : List String)
    (fetch : String → Option ℚ) :
    List (String × Option ℚ) × MarketCapsCache :=
  let recompute :=
    let result := tickers.map (_fetch_single_market_cap fetch)
    (result, MarketCapsCache.mk (some result) now)
  match cache.market_caps with
  | some m =>
    if now - cache.market_caps_ts < HOLDINGS_CACHE_TTL then (m, cache) else recompute
  | none => recompute

/-- Python `dict.get(k)` on an insertion-ordered association list. -/
def dictGet {α : Type} (m : List (String × α)) (k : String) : Option α :=
  (m.find? (fun p => decide (p.1 = k))).map Prod.snd

/-- Python's `x or 0.0` on an optional number (`None` and `0.0` are falsy). -/
def pyOrZero (v : Option ℚ) : ℚ :=
  match v with
  | some x => if x = 0 then 0 else x
  | none => 0

/-- One entry of the `holdings` array of the aggregate result (source:
the dict literal appended to `holdings_list` in `get_qqq_data`). -/
structure HoldingEntry where
  ticker : String
  name : String
  market_cap : Option ℚ
  weight : ℚ
  price : Option ℚ
  change_dollar : Option ℚ
  change_pct : ℚ
  contribution : ℚ
  valid : Bool
deriving DecidableEq

/-- The `qqq` summary sub-record of the aggregate result. -/
structure QqqSummary where
  price : Option ℚ
  change_dollar : Option ℚ
  change_pct : Option ℚ
  total_contribution : ℚ
deriving DecidableEq

/-- The aggregate result assembled by `get_qqq_data`.  The `market_status` and
`fetched_at` fields are wall-clock snapshots with no claim over them and are
omitted from the model. -/
structure AggregateResult where
  qqq : QqqSummary
  holdings : List HoldingEntry
deriving DecidableEq

/-- Source: the loop body of `get_qqq_data` lines 620-639 — build one holdings
entry from the holdings row, the price map and the market-caps map. -/
def build_holding_entry (prices : List (String × PriceQuote))
    (mcaps : List (String × Option ℚ)) (row : Holding) : HoldingEntry :=
  let pd' := (dictGet prices row.ticker).getD empty_price
  let change_pct := pyOrZero pd'.change_pct
  let contrib := calculate_contribution row.weight change_pct
  { ticker := row.ticker
    name := row.name
    market_cap := (dictGet mcaps row.ticker).getD none
    weight := pyround (row.weight * 100) 4
    price := pd'.price
    change_dollar := pd'.change_dollar
    change_pct := change_pct
    contribution := contrib
    valid := pd'.valid }

/-- Source: the cache-miss path of `get_qqq_data` (lines 600-654): batch-fetch
prices for `"QQQ"` plus all holdings tickers, build the per-holding entries,
accumulate the total contribution, and sort by descending absolute
contribution (`list.sort` is stable; so is `insertionSort`). -/
def get_qqq_data_fresh (holdings_df : List Holding)
    (intradayOf dailyOf : String → Option (List (Option ℚ)))
    (mcaps : List (String × Option ℚ)) : AggregateResult :=
  let tickers := holdings_df.map (fun h => h.ticker)
  let all_tickers := "QQQ" :: tickers
  let prices := get_prices_batch all_tickers intradayOf dailyOf
  let qqq_pd := (dictGet prices "QQQ").getD empty_price
  let holdings_list := holdings_df.map (build_holding_entry prices mcaps)
  let total := holdings_list.foldl (fun acc h => acc + h.contribution) 0
  let sorted := holdings_list.insertionSort
    (fun a b => |b.contribution| ≤ |a.contribution|)
  { qqq := { price := qqq_pd.price
             change_dollar := qqq_pd.change_dollar
             change_pct := qqq_pd.change_pct
             total_contribution := pyround total 4 }
    holdings := sorted }

/-- Result slot of the module-level `_cache` dict. -/
structure DataCache where
  data : Option AggregateResult
  timestamp : ℚ
deriving DecidableEq

/-- Source: `get_qqq_data` — serve the cached aggregate when younger than
`PRICE_CACHE_TTL`, else recompute and store.  The nested holdings/market-caps
fetches are abstracted to their results (`holdings_df`, `mcaps`), themselves
modelled by `get_qqq_holdings` and `get_market_caps` above. -/
def get_qqq_data (cache : DataCache) (now : ℚ) (holdings_df : List Holding)
    (intradayOf dailyOf : String → Option (List (Option ℚ)))
    (mcaps : List (String × Option ℚ)) : AggregateResult × DataCache :=
  let recompute :=
    let result := get_qqq_data_fresh holdings_df intradayOf dailyOf mcaps
    (result, DataCache.mk (some result) now)
  match cache.data with
  | some d =>
    if now - cache.timestamp < PRICE_CACHE_TTL then (d, cache) else recompute
  | none => recompute

/-! Helper lemmas shared by several claims. -/

lemma pyround_zero (n : ℕ) : pyround 0 n = 0 := by
  simp [pyround, round_half_even]

lemma get_series_eq (x : Option (List (Option ℚ))) :
    get_series x = if nonMissing x = [] then none else some (nonMissing x) := by
  cases x with
  | none => simp [get_series, nonMissing]
  | some rows =>
    by_cases h : rows.filterMap id = []
    · simp [get_series, nonMissing, h]
    · simp [get_series, nonMissing, h, List.length_pos.mpr h]

lemma extract_valid_iff (intraday daily : Option (List (Option ℚ))) :
    (_extract_price intraday daily).valid = true ↔
      (currentPrice intraday daily).isSome ∧ (prevClose daily).isSome := by
  cases hc : currentPrice intraday daily <;> cases hp : prevClose daily <;>
    simp [_extract_price, hc, hp, empty_price]

lemma extract_invalid_eq (intraday daily : Option (List (Option ℚ)))
    (h : (_extract_price intraday daily).valid = false) :
    _extract_price intraday daily = empty_price := by
  cases hc : currentPrice intraday daily <;> cases hp : prevClose daily <;>
    simp_all [_extract_price, hc, hp, empty_price]

lemma extract_valid_fields (intraday daily : Option (List (Option ℚ)))
    (h : (_extract_price intraday daily).valid = true) :
    (_extract_price intraday daily).price.isSome ∧
    (_extract_price intraday daily).prev_close.isSome ∧
    (_extract_price intraday daily).change_dollar.isSome ∧
    (_extract_price intraday daily).change_pct.isSome := by
  cases hc : currentPrice intraday daily <;> cases hp : prevClose daily <;>
    simp_all [_extract_price, hc, hp, empty_price]

/-! Claim theorems. -/

/-- C2: for every ticker, `_extract_price` derives the current price as the
last non-missing value of the intraday close series when that series is
non-empty (has a non-missing value), and otherwise as the last (non-missing)
value of the daily close series; and derives the previous close as the
second-to-last value of the daily close series when it has at least two
points, and otherwise as its single available value; the quote's `price` and
`prev_close` fields store those two values (rounded to cents) whenever both
are resolved. -/
theorem price_derivation_rule (intraday daily : Option (List (Option ℚ))) :
    currentPrice intraday daily =
      (if nonMissing intraday ≠ [] then (nonMissing intraday).getLast?
       else (nonMissing daily).getLast?) ∧
    prevClose daily =
      (if 2 ≤ (nonMissing daily).length then (nonMissing daily).dropLast.getLast?
       else (nonMissing daily).getLast?) ∧
    (_extract_price intraday daily).price =
      (match currentPrice intraday daily, prevClose daily with
       | some c, some _ => some (pyround c 2)
       | _, _ => none) ∧
    (_extract_price intraday daily).prev_close =
      (match currentPrice intraday daily, prevClose daily with
       | some _, some p => some (pyround p 2)
       | _, _ => none) := by
  refine ⟨?_, ?_, ?_, ?_⟩
  · by_cases hi : nonMissing intraday = []
    · by_cases hd : nonMissing daily = []
      · simp [currentPrice, get_series_eq, hi, hd]
      · simp [currentPrice, get_series_eq, hi, hd]
    · simp [currentPrice, get_series_eq, hi]
  · by_cases hd : nonMissing daily = []
    · simp [prevClose, get_series_eq, hd]
    · simp [prevClose, get_series_eq, hd]
  · cases hc : currentPrice intraday daily <;> cases hp : prevClose daily <;>
      simp [_extract_price, hc, hp, empty_price]
  · cases hc : currentPrice intraday daily <;> cases hp : prevClose daily <;>
      simp [_extract_price, hc, hp, empty_price]

/-- C1: every quote in the map returned by `get_prices_batch` comes from
`_extract_price` on the ticker's data; it has `valid = true` exactly when
both a current price and a previous close were resolved, in which case all
four numeric fields are present; otherwise it is the all-absent empty quote
(never zero-filled). -/
theorem batch_quote_validity (tickers : List String)
    (intradayOf dailyOf : String → Option (List (Option ℚ)))
    (pr : String × PriceQuote)
    (hmem : pr ∈ get_prices_batch tickers intradayOf dailyOf) :
    ∃ nt, (nt, pr.1) ∈ norm_map tickers ∧
      pr.2 = _extract_price (intradayOf nt) (dailyOf nt) ∧
      (pr.2.valid = true ↔
        (currentPrice (intradayOf nt) (dailyOf nt)).isSome ∧
        (prevClose (dailyOf nt)).isSome) ∧
      (pr.2.valid = true →
        pr.2.price.isSome ∧ pr.2.prev_close.isSome ∧
        pr.2.change_dollar.isSome ∧ pr.2.change_pct.isSome) ∧
      (pr.2.valid = false → pr.2 = empty_price) := by
  unfold get_prices_batch at hmem
  by_cases he : tickers.isEmpty
  · simp [he] at hmem
  · have hmem' : pr ∈ (norm_map tickers).map
        (fun p => (p.2, _extract_price (intradayOf p.1) (dailyOf p.1))) := by
      simpa [he] using hmem
    obtain ⟨p, hp, rfl⟩ := List.mem_map.1 hmem'
    refine ⟨p.1, ?_, rfl, extract_valid_iff _ _, extract_valid_fields _ _,
      extract_invalid_eq _ _⟩
    simpa using hp

/-- C1 witness: the batch over the single ticker `"AAPL"` with a two-point
daily series yields a quote satisfying the validity dichotomy. -/
theorem batch_quote_validity_witness :
    ∃ nt, (nt, "AAPL") ∈ norm_map ["AAPL"] ∧
      _extract_price none (some [some 100, some 103]) =
        _extract_price none (some [some 100, some 103]) ∧
      ((_extract_price none (some [some 100, some 103])).valid = true ↔
        (currentPrice none (some [some 100, some 103])).isSome ∧
        (prevClose (some [some 100, some 103])).isSome) ∧
      ((_extract_price none (some [some 100, some 103])).valid = true →
        (_extract_price none (some [some 100, some 103])).price.isSome ∧
        (_extract_price none (some [some 100, some 103])).prev_close.isSome ∧
        (_extract_price none (some [some 100, some 103])).change_dollar.isSome ∧
        (_extract_price none (some [some 100, some 103])).change_pct.isSome) ∧
      ((_extract_price none (some [some 100, some 103])).valid = false →
        _extract_price none (some [some 100, some 103]) = empty_price) :=
  batch_quote_validity ["AAPL"]
    (fun _ => none) (fun _ => some [some 100, some 103])
    ("AAPL", _extract_price none (some [some 100, some 103]))
    (by simp [get_prices_batch, norm_map, dictInsert, _normalize_ticker])

/-- C5 (amended): when both prices are resolved, `change_dollar` is the
unrounded difference rounded to cents, and `change_pct` is the unrounded
difference divided by the unrounded previous close times 100, rounded to 4
decimals — or exactly 0 when the previous close is exactly zero. -/
theorem change_fields_formula (intraday daily : Option (List (Option ℚ)))
    (c p : ℚ) (hc : currentPrice intraday daily = some c)
    (hp : prevClose daily = some p) :
    (_extract_price intraday daily).change_dollar = some (pyround (c - p) 2) ∧
    (_extract_price intraday daily).change_pct =
      (if p = 0 then some 0 else some (pyround ((c - p) / p * 100) 4)) := by
  by_cases h0 : p = 0
  · simp [_extract_price, hc, hp, h0, pyround_zero]
  · simp [_extract_price, hc, hp, h0]

/-- C5 witness: a concrete quote (current 103, previous close 100) whose
change fields follow the amended formula. -/
theorem change_fields_formula_witness :
    (_extract_price none (some [some 100, some 103])).change_dollar =
      some (pyround ((103 : ℚ) - 100) 2) ∧
    (_extract_price none (some [some 100, some 103])).change_pct =
      (if (100 : ℚ) = 0 then some 0
       else some (pyround (((103 : ℚ) - 100) / 100 * 100) 4)) :=
  change_fields_formula none (some [some 100, some 103]) 103 100
    (by simp [currentPrice, get_series]) (by simp [prevClose, get_series])

/-- C5 counterexample: with previous close 100 and current price 100.006, the
stored `change_dollar` is 0.01 (rounded to cents) but the stored `change_pct`
is 0.006 — not `round(change_dollar / prev_close * 100, 4) = 0.01` as the
claim, which derives `change_pct` from the already-rounded `change_dollar`,
would require.  The code computes `change_pct` from the unrounded
difference. -/
theorem change_pct_from_rounded_cex :
    (_extract_price none (some [some 100, some (50003/500)])).prev_close =
      some 100 ∧
    (_extract_price none (some [some 100, some (50003/500)])).change_dollar =
      some (1/100) ∧
    (_extract_price none (some [some 100, some (50003/500)])).change_pct =
      some (3/500) ∧
    (some (3/500) : Option ℚ) ≠ some (pyround ((1/100 : ℚ) / 100 * 100) 4) := by
  have hc : currentPrice none (some [some 100, some (50003/500)]) =
      some (50003/500) := by simp [currentPrice, get_series]
  have hp : prevClose (some [some 100, some (50003/500)]) = some 100 := by
    simp [prevClose, get_series]
  refine ⟨?_, ?_, ?_, ?_⟩
  · simp [_extract_price, hc, hp]
    norm_num [pyround, round_half_even]
  · simp [_extract_price, hc, hp]
    norm_num [pyround, round_half_even]
  · simp [_extract_price, hc, hp]
    norm_num [pyround, round_half_even]
  · simp only [ne_eq, Option.some.injEq]
    norm_num [pyround, round_half_even]

/-! Lemmas about the holdings tiers. -/

lemma mem_sortByWeightDesc (hs : List Holding) (h : Holding) :
    h ∈ sortByWeightDesc hs ↔ h ∈ hs :=
  (List.perm_insertionSort _ hs).mem_iff

/-- C3 (amended): tickers returned by the Invesco and Slickcharts tiers always
match the ticker-format invariant (both tiers filter by the regex);
Slickcharts weights are strictly positive; the static tier satisfies the full
claimed invariant (valid tickers and weights in [0,1]).  The network tiers do
not clamp weights to [0,1] and the yfinance tier does not validate tickers
(see the counterexample). -/
theorem holdings_tier_invariants (rowsI : List InvescoRow) (rowsS : List SlickRow) :
    (∀ h ∈ _fetch_holdings_invesco rowsI, ticker_ok h.ticker = true) ∧
    (∀ h ∈ _fetch_holdings_slickcharts rowsS,
      ticker_ok h.ticker = true ∧ 0 < h.weight) ∧
    (∀ h ∈ _get_static_holdings,
      ticker_ok h.ticker = true ∧ 0 ≤ h.weight ∧ h.weight ≤ 1) := by
  refine ⟨?_, ?_, ?_⟩
  · intro h hm
    rw [_fetch_holdings_invesco, mem_sortByWeightDesc] at hm
    obtain ⟨r, hr, rfl⟩ := List.mem_map.1 hm
    have := List.mem_filter.1 hr
    simpa using this.2
  · intro h hm
    rw [_fetch_holdings_slickcharts, mem_sortByWeightDesc] at hm
    have hm' := List.mem_filter.1 hm
    obtain ⟨r, hr, rfl⟩ := List.mem_map.1 hm'.1
    have := List.mem_filter.1 hr
    refine ⟨by simpa using this.2, by simpa using hm'.2⟩
  · intro h hm
    rw [_get_static_holdings, mem_sortByWeightDesc] at hm
    fin_cases hm <;> exact ⟨by decide, by norm_num, by norm_num⟩

/-- C3 witness: a format-valid Invesco row, a positive-weight Slickcharts row,
and the top static holding each satisfy the amended invariant. -/
theorem holdings_tier_invariants_witness :
    ticker_ok "AAPL" = true ∧
    (ticker_ok "MSFT" = true ∧ 0 < (9 : ℚ)/100) ∧
    (ticker_ok "MSFT" = true ∧ 0 ≤ (840 : ℚ)/10000 ∧ (840 : ℚ)/10000 ≤ 1) := by
  have H := holdings_tier_invariants [⟨"AAPL", 9, "Apple Inc", "Technology"⟩]
    [⟨"MSFT", some 9, "Microsoft Corp"⟩]
  have hmI : (⟨"AAPL", "Apple Inc", 9/100, "Technology"⟩ : Holding) ∈
      _fetch_holdings_invesco [⟨"AAPL", 9, "Apple Inc", "Technology"⟩] := by
    rw [_fetch_holdings_invesco, mem_sortByWeightDesc]
    have hcl : pyUpper (pyStrip "AAPL") = "AAPL" := by decide
    have htk : ticker_ok "AAPL" = true := by decide
    simp [hcl, htk]
  have hmS : (⟨"MSFT", "Microsoft Corp", 9/100, ""⟩ : Holding) ∈
      _fetch_holdings_slickcharts [⟨"MSFT", some 9, "Microsoft Corp"⟩] := by
    rw [_fetch_holdings_slickcharts, mem_sortByWeightDesc]
    have hcl : pyUpper (pyStrip "MSFT") = "MSFT" := by decide
    have htk : ticker_ok "MSFT" = true := by decide
    rw [List.mem_filter]
    constructor
    · simp [hcl, htk]
    · norm_num
  have hmT : (⟨"MSFT", "Microsoft Corp", 840/10000, "Technology"⟩ : Holding) ∈
      _get_static_holdings := by
    rw [_get_static_holdings, mem_sortByWeightDesc]
    simp [_STATIC_HOLDINGS]
  exact ⟨H.1 _ hmI, H.2.1 _ hmS, H.2.2 _ hmT⟩

/-- C3 counterexample: an Invesco weight cell of `150%` yields weight 1.5,
outside [0,1] (no tier clamps weights), and the yfinance tier returns the
ticker `"brk.b"` unvalidated, violating the ticker-format invariant. -/
theorem holdings_invariant_cex :
    (¬ ∀ h ∈ _fetch_holdings_invesco [⟨"AAPL", 150, "Apple Inc", "Technology"⟩],
        ticker_ok h.ticker = true ∧ 0 ≤ h.weight ∧ h.weight ≤ 1) ∧
    (¬ ∀ h ∈ _fetch_holdings_yfinance [⟨"brk.b", "Berkshire Hathaway", none⟩],
        ticker_ok h.ticker = true ∧ 0 ≤ h.weight ∧ h.weight ≤ 1) := by
  constructor
  · intro hcl
    have hmI : (⟨"AAPL", "Apple Inc", 150/100, "Technology"⟩ : Holding) ∈
        _fetch_holdings_invesco [⟨"AAPL", 150, "Apple Inc", "Technology"⟩] := by
      rw [_fetch_holdings_invesco, mem_sortByWeightDesc]
      have hcl' : pyUpper (pyStrip "AAPL") = "AAPL" := by decide
      have htk : ticker_ok "AAPL" = true := by decide
      simp [hcl', htk]
    have h1 := (hcl _ hmI).2.2
    norm_num at h1
  · intro hcl
    have hmY : (⟨"brk.b", "Berkshire Hathaway", 0, "Unknown"⟩ : Holding) ∈
        _fetch_holdings_yfinance [⟨"brk.b", "Berkshire Hathaway", none⟩] := by
      rw [_fetch_holdings_yfinance, mem_sortByWeightDesc]
      have hmax : ¬ ((3 : ℚ)/2 < [(0 : ℚ)].foldl max 0) := by
        simp only [List.foldl_cons, List.foldl_nil, max_self]
        norm_num
      simp [hmax]
    have h2 := (hcl _ hmY).1
    have : ticker_ok "brk.b" = false := by decide
    rw [this] at h2
    exact Bool.false_ne_true h2

lemma orElseTier_ne_nil (t : Option (List Holding)) (next : List Holding)
    (h : next ≠ []) : orElseTier t next ≠ [] := by
  cases t with
  | none => exact h
  | some l =>
    by_cases he : l.isEmpty
    · simpa [orElseTier, he] using h
    · have hne : l ≠ [] := fun heq => he (by simp [heq])
      simpa [orElseTier, he] using hne

lemma static_holdings_ne_nil : _get_static_holdings ≠ [] := by
  intro h
  have hlen := (List.perm_insertionSort
    (fun a b : Holding => b.weight ≤ a.weight) _STATIC_HOLDINGS).length_eq
  rw [_get_static_holdings, sortByWeightDesc] at h
  rw [h] at hlen
  simp [_STATIC_HOLDINGS] at hlen

lemma holdings_chain_ne_nil (t1 t2 t3 : Option (List Holding)) :
    holdings_chain t1 t2 t3 ≠ [] :=
  orElseTier_ne_nil _ _ (orElseTier_ne_nil _ _
    (orElseTier_ne_nil _ _ static_holdings_ne_nil))

/-- C4: `get_qqq_holdings` never raises (it is total) and always returns a
non-empty holdings set, provided the cache slot respects its invariant of
only holding previously returned (non-empty) frames; a failed tier (`none`,
modelling a caught exception, or an empty frame) makes the chain advance to
the next tier in the fixed order Invesco → Slickcharts → yfinance → static
snapshot, and the static tier cannot fail. -/
theorem holdings_fallback_total (cache : HoldingsCache) (now : ℚ)
    (t1 t2 t3 : Option (List Holding))
    (hcache : ∀ l, cache.holdings = some l → l ≠ []) :
    (get_qqq_holdings cache now t1 t2 t3).1 ≠ [] ∧
    _get_static_holdings ≠ [] ∧
    (tier_failed t1 = false → holdings_chain t1 t2 t3 = t1.getD []) ∧
    (tier_failed t1 = true → tier_failed t2 = false →
      holdings_chain t1 t2 t3 = t2.getD []) ∧
    (tier_failed t1 = true → tier_failed t2 = true → tier_failed t3 = false →
      holdings_chain t1 t2 t3 = t3.getD []) ∧
    (tier_failed t1 = true → tier_failed t2 = true → tier_failed t3 = true →
      holdings_chain t1 t2 t3 = _get_static_holdings) := by
  refine ⟨?_, static_holdings_ne_nil, ?_, ?_, ?_, ?_⟩
  · unfold get_qqq_holdings
    cases hc : cache.holdings with
    | none => exact holdings_chain_ne_nil t1 t2 t3
    | some df =>
      by_cases hfresh : now - cache.holdings_ts < HOLDINGS_CACHE_TTL
      · simpa [hfresh] using hcache df hc
      · simpa [hfresh] using holdings_chain_ne_nil t1 t2 t3
  · intro h1
    cases t1 with
    | none => simp [tier_failed] at h1
    | some l => simp_all [tier_failed, holdings_chain, orElseTier]
  · intro h1 h2
    cases t1 <;> cases t2 <;> simp_all [tier_failed, holdings_chain, orElseTier]
  · intro h1 h2 h3
    cases t1 <;> cases t2 <;> cases t3 <;>
      simp_all [tier_failed, holdings_chain, orElseTier]
  · intro h1 h2 h3
    cases t1 <;> cases t2 <;> cases t3 <;>
      simp_all [tier_failed, holdings_chain, orElseTier]

/-- C4 witness: with an empty cache and all three fallible tiers failing, the
call returns the (non-empty) static snapshot. -/
theorem holdings_fallback_total_witness :
    (get_qqq_holdings ⟨none, 0⟩ 0 none none none).1 ≠ [] ∧
    holdings_chain none none none = _get_static_holdings := by
  have H := holdings_fallback_total ⟨none, 0⟩ 0 none none none
    (fun l h => by cases h)
  exact ⟨H.1, H.2.2.2.2.2 rfl rfl rfl⟩

/-- C9: when a market-caps map was stored less than the 24-hour TTL ago,
`get_market_caps` returns that cached map unchanged, regardless of the
`tickers` argument of the current call. -/
theorem market_caps_cache_hit (cache : MarketCapsCache) (now : ℚ)
    (tickers : List String) (fetch : String → Option ℚ)
    (m : List (String × Option ℚ)) (hm : cache.market_caps = some m)
    (hfresh : now - cache.market_caps_ts < HOLDINGS_CACHE_TTL) :
    (get_market_caps cache now tickers fetch).1 = m := by
  simp [get_market_caps, hm, hfresh]

/-- C9 witness: a cache written at time 0 and read at time 1 requesting only
`"MSFT"` still returns the stored map, which mentions only `"AAPL"`. -/
theorem market_caps_cache_hit_witness :
    (get_market_caps ⟨some [("AAPL", some 1000)], 0⟩ 1 ["MSFT"]
      (fun _ => none)).1 = [("AAPL", some 1000)] :=
  market_caps_cache_hit ⟨some [("AAPL", some 1000)], 0⟩ 1 ["MSFT"]
    (fun _ => none) [("AAPL", some 1000)] rfl
    (by norm_num [HOLDINGS_CACHE_TTL])

/-! Lemmas about the normalization map of `get_prices_batch`. -/

lemma mem_dictInsert_self (m : List (String × String)) (k v : String) :
    (k, v) ∈ dictInsert m k v := by
  unfold dictInsert
  by_cases ha : m.any (fun p => p.1 = k)
  · rw [if_pos ha]
    rw [List.any_eq_true] at ha
    obtain ⟨p, hp, hk⟩ := ha
    refine List.mem_map.2 ⟨p, hp, ?_⟩
    simp only [decide_eq_true_eq] at hk
    simp [hk]
  · rw [if_neg ha]
    simp

lemma mem_dictInsert_of_ne (m : List (String × String)) (k v k₀ v₀ : String)
    (h : (k₀, v₀) ∈ m) (hne : k₀ ≠ k) : (k₀, v₀) ∈ dictInsert m k v := by
  unfold dictInsert
  by_cases ha : m.any (fun p => p.1 = k)
  · rw [if_pos ha]
    refine List.mem_map.2 ⟨(k₀, v₀), h, ?_⟩
    simp [hne]
  · rw [if_neg ha]
    simp [h]

lemma values_dictInsert_subset (m : List (String × String)) (k v x : String)
    (hx : x ∈ (dictInsert m k v).map Prod.snd) :
    x ∈ m.map Prod.snd ∨ x = v := by
  unfold dictInsert at hx
  by_cases ha : m.any (fun p => p.1 = k)
  · rw [if_pos ha] at hx
    rw [List.map_map, List.mem_map] at hx
    obtain ⟨p, hp, hpx⟩ := hx
    by_cases hk : p.1 = k
    · right
      simp only [Function.comp, hk, if_pos] at hpx
      exact hpx.symm
    · left
      simp only [Function.comp, hk, if_neg, if_false] at hpx
      exact List.mem_map.2 ⟨p, hp, hpx⟩
  · rw [if_neg ha] at hx
    rw [List.map_append, List.mem_append] at hx
    rcases hx with hx | hx
    · left; exact hx
    · right; simpa using hx

lemma foldl_dictInsert_preserves (ts : List String) :
    ∀ (acc : List (String × String)) (k v : String), (k, v) ∈ acc →
    (∀ t ∈ ts, _normalize_ticker t = k → t = v) →
    (k, v) ∈ ts.foldl (fun m t => dictInsert m (_normalize_ticker t) t) acc := by
  induction ts with
  | nil => intro acc k v h _; simpa using h
  | cons t rest ih =>
    intro acc k v h hinj
    simp only [List.foldl_cons]
    refine ih _ k v ?_ (fun t' ht' heq => hinj t' (List.mem_cons_of_mem _ ht') heq)
    by_cases hk : _normalize_ticker t = k
    · have hv : t = v := hinj t (List.mem_cons_self _ _) hk
      rw [hk, hv]
      exact mem_dictInsert_self acc k v
    · exact mem_dictInsert_of_ne _ _ _ _ _ h (fun heq => hk (heq ▸ rfl))

lemma mem_foldl_norm (ts : List String) :
    ∀ (acc : List (String × String)) (t : String), t ∈ ts →
    (∀ t' ∈ ts, _normalize_ticker t' = _normalize_ticker t → t' = t) →
    (_normalize_ticker t, t) ∈
      ts.foldl (fun m x => dictInsert m (_normalize_ticker x) x) acc := by
  induction ts with
  | nil => intro acc t ht; simp at ht
  | cons x rest ih =>
    intro acc t ht hinj
    simp only [List.foldl_cons]
    rcases List.mem_cons.1 ht with rfl | htr
    · refine foldl_dictInsert_preserves rest _ _ _ (mem_dictInsert_self acc _ _)
        (fun t' ht' heq => hinj t' (List.mem_cons_of_mem _ ht') heq)
    · exact ih _ t htr (fun t' ht' heq => hinj t' (List.mem_cons_of_mem _ ht') heq)

lemma values_foldl_subset (ts : List String) :
    ∀ (acc : List (String × String)) (x : String),
    x ∈ (ts.foldl (fun m t => dictInsert m (_normalize_ticker t) t) acc).map Prod.snd →
    x ∈ acc.map Prod.snd ∨ x ∈ ts := by
  induction ts with
  | nil => intro acc x h; left; simpa using h
  | cons t rest ih =>
    intro acc x h
    simp only [List.foldl_cons] at h
    rcases ih _ x h with h' | h'
    · rcases values_dictInsert_subset _ _ _ _ h' with h'' | rfl
      · left; exact h''
      · right; exact List.mem_cons_self _ _
    · right; exact List.mem_cons_of_mem _ h'

/-- C6 (amended): when normalization is injective on the input list (no two
input tickers rewrite to the same normalized string), the key set of the map
returned by `get_prices_batch` is exactly the set of original input tickers;
each normalized ticker is mapped back to its original spelling. -/
theorem batch_keys_normalization (tickers : List String)
    (intradayOf dailyOf : String → Option (List (Option ℚ)))
    (hinj : ∀ t₁ ∈ tickers, ∀ t₂ ∈ tickers,
      _normalize_ticker t₁ = _normalize_ticker t₂ → t₁ = t₂) (t : String) :
    t ∈ (get_prices_batch tickers intradayOf dailyOf).map Prod.fst ↔
      t ∈ tickers := by
  constructor
  · intro h
    unfold get_prices_batch at h
    by_cases he : tickers.isEmpty
    · simp [he] at h
    · have h' : t ∈ (norm_map tickers).map Prod.snd := by
        rw [if_neg he, List.map_map] at h
        simpa [Function.comp] using h
      rcases values_foldl_subset tickers [] t h' with h'' | h''
      · simp at h''
      · exact h''
  · intro ht
    unfold get_prices_batch
    have hne : ¬ tickers.isEmpty = true := by
      cases tickers with
      | nil => simp at ht
      | cons a l => simp
    rw [if_neg hne, List.map_map]
    have hm := mem_foldl_norm tickers [] t ht
      (fun t' ht' heq => hinj t' ht' t ht heq)
    exact List.mem_map.2 ⟨(_normalize_ticker t, t), hm, rfl⟩

/-- C6 witness: on the collision-free input `["AAPL", "MSFT"]` the key
`"AAPL"` is present. -/
theorem batch_keys_normalization_witness :
    "AAPL" ∈ (get_prices_batch ["AAPL", "MSFT"] (fun _ => none)
      (fun _ => none)).map Prod.fst ↔ "AAPL" ∈ (["AAPL", "MSFT"] : List String) :=
  batch_keys_normalization ["AAPL", "MSFT"] (fun _ => none) (fun _ => none)
    (by decide) "AAPL"

/-- C6 counterexample: the inputs `"BRK.B"` and `"BRK-B"` both normalize to
`"BRK-B"`, so the dict comprehension `norm_map` keeps only one entry and the
key `"BRK.B"` is missing from the returned map — the key set is a proper
subset of the input set. -/
theorem batch_keys_cex :
    "BRK.B" ∈ (["BRK.B", "BRK-B"] : List String) ∧
    "BRK.B" ∉ (get_prices_batch ["BRK.B", "BRK-B"] (fun _ => none)
      (fun _ => none)).map Prod.fst := by
  constructor
  · simp
  · intro h
    rw [get_prices_batch] at h
    simp only [List.isEmpty_cons, if_false, List.map_map] at h
    have : "BRK.B" ∈ (norm_map ["BRK.B", "BRK-B"]).map Prod.snd := by
      simpa [Function.comp] using h
    have hv : norm_map ["BRK.B", "BRK-B"] = [("BRK-B", "BRK-B")] := by decide
    rw [hv] at this
    simp at this

lemma batch_value_extract (tickers : List String)
    (intradayOf dailyOf : String → Option (List (Option ℚ)))
    (pr : String × PriceQuote)
    (h : pr ∈ get_prices_batch tickers intradayOf dailyOf) :
    ∃ nt, pr.2 = _extract_price (intradayOf nt) (dailyOf nt) := by
  unfold get_prices_batch at h
  by_cases he : tickers.isEmpty
  · simp [he] at h
  · have h' : pr ∈ (norm_map tickers).map
        (fun p => (p.2, _extract_price (intradayOf p.1) (dailyOf p.1))) := by
      simpa [he] using h
    obtain ⟨p, _, rfl⟩ := List.mem_map.1 h'
    exact ⟨p.1, rfl⟩

lemma dictGet_batch_invalid (tickers : List String)
    (intradayOf dailyOf : String → Option (List (Option ℚ))) (k : String)
    (h : ((dictGet (get_prices_batch tickers intradayOf dailyOf) k).getD
      empty_price).valid = false) :
    (dictGet (get_prices_batch tickers intradayOf dailyOf) k).getD empty_price =
      empty_price := by
  cases hf : dictGet (get_prices_batch tickers intradayOf dailyOf) k with
  | none => simp
  | some q =>
    rw [hf] at h
    rw [Option.getD_some] at h ⊢
    unfold dictGet at hf
    obtain ⟨a, ha, ha2⟩ := Option.map_eq_some'.1 hf
    have hmem := List.mem_of_find?_eq_some ha
    obtain ⟨nt, hnt⟩ := batch_value_extract tickers intradayOf dailyOf a hmem
    rw [ha2] at hnt
    rw [hnt] at h ⊢
    exact extract_invalid_eq _ _ h

/-- C10: in every aggregate produced on the cache-miss path of
`get_qqq_data`, a holdings entry whose quote is missing or invalid (i.e.
`valid = false`) has `change_pct` zero-filled to 0.0 and `contribution` 0.0,
while its `price` and `change_dollar` fields are absent. -/
theorem invalid_entry_zero_filled (cache : DataCache) (now : ℚ)
    (holdings_df : List Holding)
    (intradayOf dailyOf : String → Option (List (Option ℚ)))
    (mcaps : List (String × Option ℚ)) (hmiss : cache.data = none)
    (e : HoldingEntry)
    (he : e ∈ (get_qqq_data cache now holdings_df intradayOf dailyOf
      mcaps).1.holdings)
    (hinvalid : e.valid = false) :
    e.change_pct = 0 ∧ e.contribution = 0 ∧ e.price = none ∧
      e.change_dollar = none := by
  have hfresh : (get_qqq_data cache now holdings_df intradayOf dailyOf mcaps).1 =
      get_qqq_data_fresh holdings_df intradayOf dailyOf mcaps := by
    simp [get_qqq_data, hmiss]
  rw [hfresh] at he
  simp only [get_qqq_data_fresh] at he
  rw [(List.perm_insertionSort _ _).mem_iff] at he
  obtain ⟨row, _, rfl⟩ := List.mem_map.1 he
  simp only [build_holding_entry] at hinvalid ⊢
  have hemp := dictGet_batch_invalid
    ("QQQ" :: holdings_df.map (fun h => h.ticker)) intradayOf dailyOf
    row.ticker hinvalid
  rw [hemp]
  simp [pyOrZero, empty_price, calculate_contribution, pyround_zero]

/-- C10 witness: a single holding whose data is entirely missing yields the
zero-filled invalid entry. -/
theorem invalid_entry_zero_filled_witness :
    (HoldingEntry.mk "AAA" "A" none 50 none none 0 0 false).change_pct = 0 ∧
    (HoldingEntry.mk "AAA" "A" none 50 none none 0 0 false).contribution = 0 ∧
    (HoldingEntry.mk "AAA" "A" none 50 none none 0 0 false).price = none ∧
    (HoldingEntry.mk "AAA" "A" none 50 none none 0 0 false).change_dollar =
      none := by
  refine invalid_entry_zero_filled ⟨none, 0⟩ 0 [⟨"AAA", "A", 1/2, ""⟩]
    (fun _ => none) (fun _ => none) [] rfl _ ?_ rfl
  have hq : _extract_price (none : Option (List (Option ℚ))) none =
      empty_price := rfl
  have hb : build_holding_entry
      (get_prices_batch ["QQQ", "AAA"] (fun _ => none) (fun _ => none)) []
      ⟨"AAA", "A", 1/2, ""⟩ =
      HoldingEntry.mk "AAA" "A" none 50 none none 0 0 false := by
    have hpr : get_prices_batch ["QQQ", "AAA"] (fun _ => none)
        (fun _ => none) = [("QQQ", empty_price), ("AAA", empty_price)] := by
      rw [get_prices_batch, if_neg (by decide)]
      have hnm : norm_map ["QQQ", "AAA"] = [("QQQ", "QQQ"), ("AAA", "AAA")] := by
        decide
      rw [hnm]
      simp [hq]
    rw [build_holding_entry, hpr]
    have hg : dictGet [("QQQ", empty_price), ("AAA", empty_price)] "AAA" =
        some empty_price := by
      simp [dictGet, List.find?]
    rw [hg]
    simp only [Option.getD_some]
    simp [pyOrZero, empty_price, calculate_contribution, pyround_zero, dictGet]
    norm_num [pyround, round_half_even]
  have hfr : (get_qqq_data ⟨none, 0⟩ 0 [⟨"AAA", "A", 1/2, ""⟩]
      (fun _ => none) (fun _ => none) []).1 =
      get_qqq_data_fresh [⟨"AAA", "A", 1/2, ""⟩] (fun _ => none)
        (fun _ => none) [] := by
    simp [get_qqq_data]
  rw [hfr]
  simp only [get_qqq_data_fresh]
  rw [(List.perm_insertionSort _ _).mem_iff]
  simp only [List.map_cons, List.map_nil]
  rw [hb]
  exact List.mem_singleton.2 rfl

/-- C8: the holdings of every aggregate produced on the cache-miss path of
`get_qqq_data` are sorted by descending absolute contribution; concretely,
with two holdings contributing +3.0 and -5.0, the -5.0 holding is ranked
ahead of the +3.0 one. -/
theorem aggregate_sorted_by_abs_contribution :
    (∀ (cache : DataCache) (now : ℚ) (holdings_df : List Holding)
      (intradayOf dailyOf : String → Option (List (Option ℚ)))
      (mcaps : List (String × Option ℚ)), cache.data = none →
      ((get_qqq_data cache now holdings_df intradayOf dailyOf
        mcaps).1.holdings).Pairwise
        (fun a b => |b.contribution| ≤ |a.contribution|)) ∧
    ((get_qqq_data ⟨none, 0⟩ 0 [⟨"AAA", "A", 1, ""⟩, ⟨"BBB", "B", 1, ""⟩]
      (fun _ => none)
      (fun t => if t = "AAA" then some [some 100, some 103]
                else if t = "BBB" then some [some 100, some 95] else none)
      []).1.holdings).map (fun h => h.contribution) = [-5, 3] := by
  constructor
  · intro cache now holdings_df intradayOf dailyOf mcaps hmiss
    have hfresh : (get_qqq_data cache now holdings_df intradayOf dailyOf
        mcaps).1 = get_qqq_data_fresh holdings_df intradayOf dailyOf mcaps := by
      simp [get_qqq_data, hmiss]
    rw [hfresh]
    simp only [get_qqq_data_fresh]
    letI : IsTotal HoldingEntry
        (fun a b => |b.contribution| ≤ |a.contribution|) :=
      ⟨fun a b => le_total _ _⟩
    letI : IsTrans HoldingEntry
        (fun a b => |b.contribution| ≤ |a.contribution|) :=
      ⟨fun a b c h1 h2 => le_trans h2 h1⟩
    exact List.sorted_insertionSort _ _
  · have eQ : _extract_price (none : Option (List (Option ℚ))) none =
        empty_price := rfl
    have eA : _extract_price none (some [some 100, some 103]) =
        ⟨some 103, some 100, some 3, some 3, true⟩ := by
      have hc : currentPrice none (some [some 100, some 103]) = some 103 := by
        simp [currentPrice, get_series]
      have hp : prevClose (some [some 100, some 103]) = some 100 := by
        simp [prevClose, get_series]
      simp [_extract_price, hc, hp]
      norm_num [pyround, round_half_even]
    have eB : _extract_price none (some [some 100, some 95]) =
        ⟨some 95, some 100, some (-5), some (-5), true⟩ := by
      have hc : currentPrice none (some [some 100, some 95]) = some 95 := by
        simp [currentPrice, get_series]
      have hp : prevClose (some [some 100, some 95]) = some 100 := by
        simp [prevClose, get_series]
      simp [_extract_price, hc, hp]
      norm_num [pyround, round_half_even]
    have hpr : get_prices_batch ["QQQ", "AAA", "BBB"] (fun _ => none)
        (fun t => if t = "AAA" then some [some 100, some 103]
                  else if t = "BBB" then some [some 100, some 95] else none) =
        [("QQQ", empty_price),
         ("AAA", ⟨some 103, some 100, some 3, some 3, true⟩),
         ("BBB", ⟨some 95, some 100, some (-5), some (-5), true⟩)] := by
      rw [get_prices_batch, if_neg (by decide)]
      have hnm : norm_map ["QQQ", "AAA", "BBB"] =
          [("QQQ", "QQQ"), ("AAA", "AAA"), ("BBB", "BBB")] := by decide
      rw [hnm]
      simp [eQ, eA, eB]
    have hbA : build_holding_entry
        [("QQQ", empty_price),
         ("AAA", ⟨some 103, some 100, some 3, some 3, true⟩),
         ("BBB", ⟨some 95, some 100, some (-5), some (-5), true⟩)] []
        ⟨"AAA", "A", 1, ""⟩ =
        ⟨"AAA", "A", none, 100, some 103, some 3, 3, 3, true⟩ := by
      simp [build_holding_entry, dictGet, List.find?, pyOrZero,
        calculate_contribution]
      norm_num [pyround, round_half_even]
    have hbB : build_holding_entry
        [("QQQ", empty_price),
         ("AAA", ⟨some 103, some 100, some 3, some 3, true⟩),
         ("BBB", ⟨some 95, some 100, some (-5), some (-5), true⟩)] []
        ⟨"BBB", "B", 1, ""⟩ =
        ⟨"BBB", "B", none, 100, some 95, some (-5), -5, -5, true⟩ := by
      simp [build_holding_entry, dictGet, List.find?, pyOrZero,
        calculate_contribution]
      norm_num [pyround, round_half_even]
    have hsort : List.insertionSort
        (fun a b : HoldingEntry => |b.contribution| ≤ |a.contribution|)
        [⟨"AAA", "A", none, 100, some 103, some 3, 3, 3, true⟩,
         ⟨"BBB", "B", none, 100, some 95, some (-5), -5, -5, true⟩] =
        [⟨"BBB", "B", none, 100, some 95, some (-5), -5, -5, true⟩,
         ⟨"AAA", "A", none, 100, some 103, some 3, 3, 3, true⟩] := by
      simp only [List.insertionSort, List.orderedInsert]
      rw [if_neg]
      norm_num
    have hfr : (get_qqq_data ⟨none, 0⟩ 0
        [⟨"AAA", "A", 1, ""⟩, ⟨"BBB", "B", 1, ""⟩] (fun _ => none)
        (fun t => if t = "AAA" then some [some 100, some 103]
                  else if t = "BBB" then some [some 100, some 95] else none)
        []).1 =
        get_qqq_data_fresh [⟨"AAA", "A", 1, ""⟩, ⟨"BBB", "B", 1, ""⟩]
          (fun _ => none)
          (fun t => if t = "AAA" then some [some 100, some 103]
                    else if t = "BBB" then some [some 100, some 95] else none)
          [] := by
      simp [get_qqq_data]
    rw [hfr]
    simp only [get_qqq_data_fresh, List.map_cons, List.map_nil]
    rw [hpr, hbA, hbB, hsort]
    simp

/-- C8 witness: the empty holdings list instantiates the sortedness half of
the claim on the cache-miss path. -/
theorem aggregate_sorted_by_abs_contribution_witness :
    ((get_qqq_data ⟨none, 0⟩ 0 [] (fun _ => none) (fun _ => none)
      []).1.holdings).Pairwise
      (fun a b => |b.contribution| ≤ |a.contribution|) :=
  aggregate_sorted_by_abs_contribution.1 ⟨none, 0⟩ 0 [] (fun _ => none)
    (fun _ => none) [] rfl

/-- C7: `calculate_contribution` is the weight times the percentage change
rounded to 4 decimals, and at weight 0.05 and change 2.0 it is exactly 0.1. -/
theorem contribution_formula :
    (∀ weight change_pct : ℚ,
      calculate_contribution weight change_pct = pyround (weight * change_pct) 4) ∧
    calculate_contribution (1/20) 2 = 1/10 := by
  refine ⟨fun weight change_pct => rfl, ?_⟩
  norm_num [calculate_contribution, pyround, round_half_even]

end MarketAnalyser
